import Mathlib

/-!
# Verification of the EEG monitor acquisition and processing core

Shallow embedding of the acquisition, buffering, filtering and spectral
analysis code under src/monitor, with theorems settling the spec claims.
Wall-clock times and signal values are modelled as rationals, byte values as
naturals below 256. External numeric routines (scipy filter application,
Welch power estimation, short-time spectrogram) are oracle parameters of the
embedded functions, since the claims concern only the surrounding control
structure; an oracle returning none models the routine raising an exception.
-/

namespace EEG

/-! ## Settings (src/monitor/config/settings.py) -/

structure FilterSettings where
  highpass : ℚ
  lowpass : ℚ
  notch : ℚ
  enable_filter : Bool
deriving DecidableEq

structure Settings where
  sampling_rate : ℕ
  spectrogram_duration : ℕ
  filter_settings : FilterSettings
deriving DecidableEq

/-- Derived buffer capacity: spectrogram_duration seconds at sampling_rate Hz
(settings.py line 31). -/
def Settings.spectrogram_buffer_size (s : Settings) : ℕ :=
  s.spectrogram_duration * s.sampling_rate

/-- The default settings constructed in Settings.__init__. -/
def defaultSettings : Settings where
  sampling_rate := 500
  spectrogram_duration := 30
  filter_settings :=
    { highpass := 1/2, lowpass := 70, notch := 60, enable_filter := true }

/-! ## Byte-stream sample decoder
(serial_reader.read_serial_data line 216, data_manager.load_recording line 78) -/

/-- Two-byte little-endian signed decode: int.from_bytes with little byte
order and signed true, on a two-byte string with low byte first. -/
def int_from_bytes_le (lo hi : ℕ) : ℤ :=
  let u := lo + 256 * hi
  if u < 32768 then (u : ℤ) else (u : ℤ) - 65536

/-- Encode a signed 16-bit integer back into two little-endian bytes. -/
def int16_to_bytes_le (v : ℤ) : ℕ × ℕ :=
  let u := (v % 65536).toNat
  (u % 256, u / 256)

/-- Decode a byte list as consecutive little-endian signed 16-bit samples:
the per-pair int.from_bytes loop of read_serial_data, equivalently numpy
frombuffer with dtype int16 in load_recording.  A trailing odd byte is not
decoded. -/
def decode_int16_le : List ℕ → List ℤ
  | lo :: hi :: rest => int_from_bytes_le lo hi :: decode_int16_le rest
  | _ => []

/-- Re-encode a sample list into the concatenation of each sample's two
little-endian bytes. -/
def encode_int16_le (vs : List ℤ) : List ℕ :=
  vs.flatMap fun v => [(int16_to_bytes_le v).1, (int16_to_bytes_le v).2]

lemma int16_roundtrip (lo hi : ℕ) (hlo : lo < 256) (hhi : hi < 256) :
    int16_to_bytes_le (int_from_bytes_le lo hi) = (lo, hi) := by
  simp only [int16_to_bytes_le, int_from_bytes_le]
  split_ifs with h <;> simp only [Prod.mk.injEq] <;> constructor <;> omega

/-- Claim C2: decoding an even-length byte sequence as consecutive 2-byte
little-endian signed 16-bit integers and re-encoding each integer back to two
little-endian bytes reproduces the original byte sequence exactly. -/
theorem decode_encode_roundtrip : ∀ (bs : List ℕ), bs.length % 2 = 0 →
    (∀ b ∈ bs, b < 256) → encode_int16_le (decode_int16_le bs) = bs
  | [], _, _ => rfl
  | [_], h, _ => by simp at h
  | lo :: hi :: rest, h, hb => by
    have ih := decode_encode_roundtrip rest
      (by simp only [List.length_cons] at h; omega)
      (fun b hbm => hb b (by simp [hbm]))
    have hp := int16_roundtrip lo hi (hb lo (by simp)) (hb hi (by simp))
    simp only [encode_int16_le] at ih
    simp [decode_int16_le, encode_int16_le, hp, ih]

/-- Witness for C2 at the concrete byte sequence 01 00 ff 7f 00 80. -/
theorem decode_encode_roundtrip_witness :
    (([1, 0, 255, 127, 0, 128] : List ℕ).length % 2 = 0 ∧
      (∀ b ∈ ([1, 0, 255, 127, 0, 128] : List ℕ), b < 256)) ∧
    encode_int16_le (decode_int16_le [1, 0, 255, 127, 0, 128]) =
      [1, 0, 255, 127, 0, 128] :=
  ⟨⟨by decide, by decide⟩,
    decode_encode_roundtrip [1, 0, 255, 127, 0, 128] (by decide) (by decide)⟩

/-! ## Timestamp reconstruction (serial_reader.read_serial_data lines 198-208) -/

/-- The sample_times vector built in read_serial_data: the i-th of n samples
in a poll covering dt seconds since last_time gets timestamp
last_time + dt * (i + 1) / n. -/
def sample_times (last_time dt : ℚ) (n : ℕ) : List ℚ :=
  (List.range n).map fun (i : ℕ) => last_time + dt * ((i : ℚ) + 1) / (n : ℚ)

lemma sample_times_length (l dt : ℚ) (n : ℕ) :
    (sample_times l dt n).length = n := by
  unfold sample_times
  rw [List.length_map, List.length_range]

lemma sample_times_getD (l dt : ℚ) {n i : ℕ} (hi : i < n) :
    (sample_times l dt n).getD i 0 = l + dt * (i + 1) / n := by
  have hi' : i < (sample_times l dt n).length := by
    rw [sample_times_length]; exact hi
  rw [List.getD_eq_getElem _ _ hi']
  simp only [sample_times, List.getElem_map, List.getElem_range]

/-- Claim C1: in a poll decoding n >= 1 samples over elapsed time dt > 0 from
base last_time, the produced timestamps number n, the i-th (0-indexed) equals
last_time + dt * (i + 1) / n, consecutive differences all equal dt / n, the
list is strictly increasing, and the last timestamp is last_time + dt. -/
theorem sample_times_spec (l dt : ℚ) (n : ℕ) (hn : 1 ≤ n) (hdt : 0 < dt) :
    (sample_times l dt n).length = n ∧
    (∀ i, i < n → (sample_times l dt n).getD i 0 = l + dt * (i + 1) / n) ∧
    (∀ i, i + 1 < n →
      (sample_times l dt n).getD (i + 1) 0 - (sample_times l dt n).getD i 0 =
        dt / n) ∧
    List.Pairwise (fun a b => a < b) (sample_times l dt n) ∧
    (sample_times l dt n).getLast? = some (l + dt) := by
  have hn0 : (n : ℚ) ≠ 0 := Nat.cast_ne_zero.mpr (by omega)
  have hnpos : (0 : ℚ) < n := by
    exact_mod_cast Nat.pos_of_ne_zero (by omega)
  refine ⟨sample_times_length l dt n, fun i hi => sample_times_getD l dt hi,
    ?_, ?_, ?_⟩
  · intro i hi
    rw [sample_times_getD l dt hi, sample_times_getD l dt (by omega)]
    push_cast
    field_simp
    ring
  · unfold sample_times
    refine List.Pairwise.map _ ?_ (List.pairwise_lt_range n)
    intro a b hab
    apply add_lt_add_left
    rw [div_lt_div_iff_of_pos_right hnpos]
    apply mul_lt_mul_of_pos_left ?_ hdt
    exact_mod_cast Nat.succ_lt_succ hab
  · rw [List.getLast?_eq_getElem?, sample_times_length]
    have h1 : n - 1 < (sample_times l dt n).length := by
      rw [sample_times_length]; omega
    rw [List.getElem?_eq_getElem h1]
    simp only [sample_times, List.getElem_map, List.getElem_range]
    have hc : ((n - 1 : ℕ) : ℚ) + 1 = n := by
      rw [Nat.cast_sub hn]
      push_cast
      ring
    rw [hc, mul_div_cancel_right₀ dt hn0]

/-- Witness for C1: the last of 2 timestamps spread over 1 second from base 0
is the base plus the elapsed second. -/
theorem sample_times_spec_witness :
    (sample_times 0 1 2).getLast? = some (0 + 1) :=
  (sample_times_spec 0 1 2 (by norm_num) (by norm_num)).2.2.2.2

/-! ## Rolling sample buffer
(collections.deque with maxlen, serial_reader lines 26-27 and 211-221) -/

/-- One append to a bounded deque with maxlen cap: the new element goes on
the right and, once the deque is at capacity, the oldest (leftmost) entry is
evicted so the length never exceeds cap. -/
def dequeAppend {α : Type} (cap : ℕ) (xs : List α) (a : α) : List α :=
  (xs ++ [a]).drop (xs.length + 1 - cap)

lemma dequeAppend_length {α : Type} (cap : ℕ) (xs : List α) (a : α) :
    (dequeAppend cap xs a).length = min (xs.length + 1) cap := by
  simp only [dequeAppend, List.length_drop, List.length_append,
    List.length_cons, List.length_nil]
  omega

lemma foldl_dequeAppend {α : Type} (cap : ℕ) :
    ∀ (l xs : List α), xs.length ≤ cap →
      List.foldl (dequeAppend cap) xs l =
        (xs ++ l).drop (xs.length + l.length - cap)
  | [], xs, hxs => by
    simp only [List.foldl_nil, List.append_nil, List.length_nil, Nat.add_zero]
    rw [Nat.sub_eq_zero_of_le hxs, List.drop_zero]
  | a :: rest, xs, hxs => by
    have hlen : (dequeAppend cap xs a).length ≤ cap := by
      rw [dequeAppend_length]
      omega
    rw [List.foldl_cons, foldl_dequeAppend cap rest _ hlen, dequeAppend_length]
    unfold dequeAppend
    rw [← List.drop_append_of_le_length
      (show xs.length + 1 - cap ≤ (xs ++ [a]).length by
        simp only [List.length_append, List.length_cons, List.length_nil]
        omega)]
    rw [List.drop_drop]
    congr 1
    · simp only [List.length_append, List.length_cons, List.length_nil]
      omega
    · simp [List.append_assoc]

/-- The two parallel sample buffers of SerialReader. -/
@[ext]
structure Buffers where
  eeg : List ℤ
  time : List ℚ
deriving DecidableEq

/-- Appending one decoded (value, timestamp) sample to both deques, as the
loop body of read_serial_data does. -/
def buffersAppend (cap : ℕ) (b : Buffers) (s : ℤ × ℚ) : Buffers :=
  { eeg := dequeAppend cap b.eeg s.1, time := dequeAppend cap b.time s.2 }

/-- A whole sequence of sample appends. -/
def buffersAppendAll (cap : ℕ) (b : Buffers) (samples : List (ℤ × ℚ)) : Buffers :=
  samples.foldl (buffersAppend cap) b

lemma buffersAppendAll_eeg (cap : ℕ) (samples : List (ℤ × ℚ)) :
    ∀ b : Buffers, (buffersAppendAll cap b samples).eeg =
      List.foldl (dequeAppend cap) b.eeg (samples.map Prod.fst) := by
  induction samples with
  | nil => intro b; rfl
  | cons s rest ih =>
    intro b
    simp only [buffersAppendAll, List.foldl_cons, List.map_cons]
    exact ih (buffersAppend cap b s)

lemma buffersAppendAll_time (cap : ℕ) (samples : List (ℤ × ℚ)) :
    ∀ b : Buffers, (buffersAppendAll cap b samples).time =
      List.foldl (dequeAppend cap) b.time (samples.map Prod.snd) := by
  induction samples with
  | nil => intro b; rfl
  | cons s rest ih =>
    intro b
    simp only [buffersAppendAll, List.foldl_cons, List.map_cons]
    exact ih (buffersAppend cap b s)

lemma foldl_dequeAppend_nil_start {α : Type} (cap : ℕ) (l : List α) :
    List.foldl (dequeAppend cap) [] l = l.drop (l.length - cap) := by
  rw [foldl_dequeAppend cap l [] (by simp)]
  simp

lemma buffersAppendAll_nil_eeg (cap : ℕ) (l : List (ℤ × ℚ)) :
    (buffersAppendAll cap { eeg := [], time := [] } l).eeg =
      (l.map Prod.fst).drop (l.length - cap) := by
  rw [buffersAppendAll_eeg]
  show List.foldl (dequeAppend cap) [] (l.map Prod.fst) = _
  rw [foldl_dequeAppend_nil_start, List.length_map]

lemma buffersAppendAll_nil_time (cap : ℕ) (l : List (ℤ × ℚ)) :
    (buffersAppendAll cap { eeg := [], time := [] } l).time =
      (l.map Prod.snd).drop (l.length - cap) := by
  rw [buffersAppendAll_time]
  show List.foldl (dequeAppend cap) [] (l.map Prod.snd) = _
  rw [foldl_dequeAppend_nil_start, List.length_map]

/-- Claim C3: with capacity spectrogram_duration * sampling_rate, a buffer
fed by any sequence of appends from empty never exceeds the capacity and
keeps the value and timestamp deques at equal length; and after appending
capacity + k samples (k > 0) the buffer holds exactly the most recent
capacity samples in their original order (FIFO eviction of the oldest). -/
theorem rolling_buffer_spec (s : Settings) (samples : List (ℤ × ℚ)) (k : ℕ)
    (hlen : samples.length = s.spectrogram_buffer_size + k) (hk : 0 < k) :
    (∀ l : List (ℤ × ℚ),
      (buffersAppendAll s.spectrogram_buffer_size
        { eeg := [], time := [] } l).eeg.length ≤ s.spectrogram_buffer_size ∧
      (buffersAppendAll s.spectrogram_buffer_size
        { eeg := [], time := [] } l).eeg.length =
      (buffersAppendAll s.spectrogram_buffer_size
        { eeg := [], time := [] } l).time.length) ∧
    buffersAppendAll s.spectrogram_buffer_size
      { eeg := [], time := [] } samples =
      { eeg := (samples.drop k).map Prod.fst,
        time := (samples.drop k).map Prod.snd } := by
  constructor
  · intro l
    rw [buffersAppendAll_nil_eeg, buffersAppendAll_nil_time]
    refine ⟨?_, ?_⟩
    · simp only [List.length_drop, List.length_map]
      omega
    · simp only [List.length_drop, List.length_map]
  · have hk1 : samples.length - s.spectrogram_buffer_size = k := by omega
    apply Buffers.ext
    · rw [buffersAppendAll_nil_eeg, hk1, List.map_drop]
    · rw [buffersAppendAll_nil_time, hk1]
      simp [List.map_drop]

/-- A two-slot configuration used to witness buffer claims concretely. -/
def tinySettings : Settings where
  sampling_rate := 1
  spectrogram_duration := 2
  filter_settings :=
    { highpass := 1/2, lowpass := 70, notch := 60, enable_filter := true }

/-- Witness for C3: three samples through a two-slot buffer keep the last
two in order. -/
theorem rolling_buffer_spec_witness :
    buffersAppendAll tinySettings.spectrogram_buffer_size
      { eeg := [], time := [] } [((1 : ℤ), (1 : ℚ)), (2, 2), (3, 3)] =
      { eeg := ([((1 : ℤ), (1 : ℚ)), (2, 2), (3, 3)].drop 1).map Prod.fst,
        time := ([((1 : ℤ), (1 : ℚ)), (2, 2), (3, 3)].drop 1).map Prod.snd } :=
  (rolling_buffer_spec tinySettings [(1, 1), (2, 2), (3, 3)] 1
    (by decide) (by decide)).2

/-! ## Filter chain (src/monitor/signal_processing/filters.py lines 19-118) -/

/-- One guarded stage of apply_filters as the source writes it: under the
stage's guard, the coefficient design (_butter_highpass, _butter_lowpass or
_iirnotch, filters.py lines 43, 53, 63) runs first, outside any try block —
none there models the ValueError scipy raises on an invalid normalized
cutoff, which propagates and aborts the whole chain — and filtfilt then runs
inside try/except ValueError, a none there being caught so the stage keeps
its input data. -/
def runStage (guard : Prop) [Decidable guard]
    (design : Option (List ℚ × List ℚ))
    (filtfiltFn : List ℚ × List ℚ → List ℚ → Option (List ℚ))
    (d : List ℚ) : Option (List ℚ) :=
  if guard then
    match design with
    | none => none
    | some ba => some ((filtfiltFn ba d).getD d)
  else some d

/-- apply_filters (filters.py lines 19-70): the three coefficient designs
and the shared scipy filtfilt are oracle parameters.  A design none is an
uncaught ValueError, so the whole call fails (result none, modelling the
exception escaping apply_filters); a filtfilt none is the ValueError caught
per stage, the chain continuing with the data as of the previous stage. -/
def apply_filters (s : Settings)
    (designHp designLp designNt : ℚ → ℕ → Option (List ℚ × List ℚ))
    (filtfiltFn : List ℚ × List ℚ → List ℚ → Option (List ℚ))
    (eeg_data : List ℚ) : Option (List ℚ) :=
  if eeg_data.length < 30 then some eeg_data
  else if s.filter_settings.enable_filter then
    match runStage (0 < s.filter_settings.highpass)
        (designHp s.filter_settings.highpass s.sampling_rate)
        filtfiltFn eeg_data with
    | none => none
    | some d1 =>
      match runStage (s.filter_settings.lowpass < (s.sampling_rate : ℚ) / 2)
          (designLp s.filter_settings.lowpass s.sampling_rate)
          filtfiltFn d1 with
      | none => none
      | some d2 =>
        runStage (0 < s.filter_settings.notch)
          (designNt s.filter_settings.notch s.sampling_rate)
          filtfiltFn d2
  else some eeg_data

/-- Modelled from the spec's wording for one stage of the filter chain: when
the stage's guard holds, run it and keep its output, falling back to the
stage's unchanged input if it fails numerically; when the guard fails, skip
the stage. -/
def filterStage (guard : Prop) [Decidable guard]
    (f : List ℚ → Option (List ℚ)) (d : List ℚ) : List ℚ :=
  if guard then (f d).getD d else d

lemma filterStage_length (guard : Prop) [Decidable guard]
    (f : List ℚ → Option (List ℚ)) (d : List ℚ)
    (hf : ∀ x y, f x = some y → y.length = x.length) :
    (filterStage guard f d).length = d.length := by
  unfold filterStage
  split_ifs
  · cases hfd : f d with
    | none => simp [hfd]
    | some y => simp [hfd, hf d y hfd]
  · rfl

lemma runStage_some (guard : Prop) [Decidable guard]
    (design : Option (List ℚ × List ℚ))
    (filtfiltFn : List ℚ × List ℚ → List ℚ → Option (List ℚ)) (d : List ℚ)
    (h : guard → design.isSome = true) :
    runStage guard design filtfiltFn d =
      some (filterStage guard (fun x => design.bind fun ba => filtfiltFn ba x)
        d) := by
  unfold runStage filterStage
  split_ifs with hg
  · obtain ⟨ba, hba⟩ := Option.isSome_iff_exists.mp (h hg)
    rw [hba]
    simp
  · rfl

lemma bind_design_length (filtfiltFn : List ℚ × List ℚ → List ℚ → Option (List ℚ))
    (hff : ∀ ba x y, filtfiltFn ba x = some y → y.length = x.length)
    (design : Option (List ℚ × List ℚ)) :
    ∀ (x y : List ℚ), (design.bind fun ba => filtfiltFn ba x) = some y →
      y.length = x.length := by
  intro x y h
  cases design with
  | none => simp at h
  | some ba => exact hff ba x y (by simpa using h)

/-- Claim C4: on an input shorter than 30 samples, apply_filters returns the
input unchanged (and never fails), whatever the filter settings, the
coefficient designs and the filtfilt behaviour are. -/
theorem apply_filters_short (s : Settings)
    (designHp designLp designNt : ℚ → ℕ → Option (List ℚ × List ℚ))
    (filtfiltFn : List ℚ × List ℚ → List ℚ → Option (List ℚ))
    (eeg_data : List ℚ) (h : eeg_data.length < 30) :
    apply_filters s designHp designLp designNt filtfiltFn eeg_data =
      some eeg_data := by
  unfold apply_filters
  rw [if_pos h]

/-- Witness for C4 on a three-sample input with filtering enabled and
arbitrary concrete design and filtfilt behaviours. -/
theorem apply_filters_short_witness :
    apply_filters defaultSettings (fun _ _ => some ([], []))
      (fun _ _ => none) (fun _ _ => some ([1], [1])) (fun _ x => some x)
      [1, 2, 3] = some [1, 2, 3] :=
  apply_filters_short defaultSettings (fun _ _ => some ([], []))
    (fun _ _ => none) (fun _ _ => some ([1], [1])) (fun _ x => some x)
    [1, 2, 3] (by decide)

/-- The default settings with the highpass cutoff raised to 300 Hz: the
guard 0 < highpass holds, yet 300 Hz lies above the 250 Hz Nyquist frequency
of the 500 Hz sampling rate, so the highpass design fails. -/
def badHighpassSettings : Settings where
  sampling_rate := 500
  spectrogram_duration := 30
  filter_settings :=
    { highpass := 300, lowpass := 70, notch := 60, enable_filter := true }

/-- A coefficient design faithful to scipy on its failure domain: it yields
coefficients only when the normalized cutoff lies strictly between 0 and 1,
and raises ValueError (none) otherwise, as scipy.signal.butter does. -/
def scipyLikeDesign : ℚ → ℕ → Option (List ℚ × List ℚ) := fun cutoff fs =>
  if 0 < cutoff / ((fs : ℚ) / 2) ∧ cutoff / ((fs : ℚ) / 2) < 1 then
    some ([], [])
  else none

/-- Counterexample to C5 as stated: on thirty samples with filtering enabled
and highpass 300 Hz at sampling rate 500 Hz, the guard 0 < highpass holds
but the coefficient design — run outside the try block at filters.py line
43 — raises (normalized cutoff 300/250 is outside (0, 1)), and apply_filters
does not catch it: the whole chain aborts with no output, instead of the
failed stage being skipped, the later stages running, and a same-length
output being returned. -/
theorem apply_filters_design_abort :
    30 ≤ (List.replicate 30 (0 : ℚ)).length ∧
    badHighpassSettings.filter_settings.enable_filter = true ∧
    0 < badHighpassSettings.filter_settings.highpass ∧
    scipyLikeDesign badHighpassSettings.filter_settings.highpass
      badHighpassSettings.sampling_rate = none ∧
    apply_filters badHighpassSettings scipyLikeDesign scipyLikeDesign
      scipyLikeDesign (fun _ x => some x) (List.replicate 30 0) = none := by
  have hdesign : scipyLikeDesign badHighpassSettings.filter_settings.highpass
      badHighpassSettings.sampling_rate = none := by
    simp only [scipyLikeDesign, badHighpassSettings]
    rw [if_neg (by norm_num)]
  refine ⟨by simp, rfl, ?_, hdesign, ?_⟩
  · show (0 : ℚ) < 300
    norm_num
  · unfold apply_filters
    rw [if_neg (by simp),
      if_pos (show badHighpassSettings.filter_settings.enable_filter = true
        from rfl)]
    have hrs : runStage (0 < badHighpassSettings.filter_settings.highpass)
        (scipyLikeDesign badHighpassSettings.filter_settings.highpass
          badHighpassSettings.sampling_rate)
        (fun _ x => some x) (List.replicate 30 0) = none := by
      unfold runStage
      rw [hdesign,
        if_pos (show (0 : ℚ) < badHighpassSettings.filter_settings.highpass by
          show (0 : ℚ) < 300
          norm_num)]
    rw [hrs]

/-- Claim C5 amended: on an input of length at least 30 with filtering
enabled, whenever every coefficient design demanded by a satisfied guard
succeeds, apply_filters is exactly the guarded highpass, lowpass, notch
stages in that order — highpass iff its cutoff is positive, lowpass iff its
cutoff is below the Nyquist frequency, notch iff its cutoff is positive, a
filtfilt ValueError in a stage skipped with later stages running on the data
as of the previous stage — and, provided filtfilt preserves length on
success, the output has the same length as the input.  (A design ValueError,
raised outside the try blocks, instead aborts the whole chain with no
output, as the counterexample shows.) -/
theorem apply_filters_stages (s : Settings)
    (designHp designLp designNt : ℚ → ℕ → Option (List ℚ × List ℚ))
    (filtfiltFn : List ℚ × List ℚ → List ℚ → Option (List ℚ))
    (eeg_data : List ℚ) (h30 : 30 ≤ eeg_data.length)
    (hen : s.filter_settings.enable_filter = true)
    (hd1 : 0 < s.filter_settings.highpass →
      (designHp s.filter_settings.highpass s.sampling_rate).isSome = true)
    (hd2 : s.filter_settings.lowpass < (s.sampling_rate : ℚ) / 2 →
      (designLp s.filter_settings.lowpass s.sampling_rate).isSome = true)
    (hd3 : 0 < s.filter_settings.notch →
      (designNt s.filter_settings.notch s.sampling_rate).isSome = true)
    (hff : ∀ ba x y, filtfiltFn ba x = some y → y.length = x.length) :
    apply_filters s designHp designLp designNt filtfiltFn eeg_data =
      some (filterStage (0 < s.filter_settings.notch)
        (fun x => (designNt s.filter_settings.notch s.sampling_rate).bind
          fun ba => filtfiltFn ba x)
        (filterStage (s.filter_settings.lowpass < (s.sampling_rate : ℚ) / 2)
          (fun x => (designLp s.filter_settings.lowpass s.sampling_rate).bind
            fun ba => filtfiltFn ba x)
          (filterStage (0 < s.filter_settings.highpass)
            (fun x => (designHp s.filter_settings.highpass s.sampling_rate).bind
              fun ba => filtfiltFn ba x)
            eeg_data))) ∧
    (∀ y, apply_filters s designHp designLp designNt filtfiltFn eeg_data =
      some y → y.length = eeg_data.length) := by
  have e1 := runStage_some (0 < s.filter_settings.highpass)
    (designHp s.filter_settings.highpass s.sampling_rate) filtfiltFn
    eeg_data hd1
  have e2 := runStage_some
    (s.filter_settings.lowpass < (s.sampling_rate : ℚ) / 2)
    (designLp s.filter_settings.lowpass s.sampling_rate) filtfiltFn
    (filterStage (0 < s.filter_settings.highpass)
      (fun x => (designHp s.filter_settings.highpass s.sampling_rate).bind
        fun ba => filtfiltFn ba x)
      eeg_data) hd2
  have e3 := runStage_some (0 < s.filter_settings.notch)
    (designNt s.filter_settings.notch s.sampling_rate) filtfiltFn
    (filterStage (s.filter_settings.lowpass < (s.sampling_rate : ℚ) / 2)
      (fun x => (designLp s.filter_settings.lowpass s.sampling_rate).bind
        fun ba => filtfiltFn ba x)
      (filterStage (0 < s.filter_settings.highpass)
        (fun x => (designHp s.filter_settings.highpass s.sampling_rate).bind
          fun ba => filtfiltFn ba x)
        eeg_data)) hd3
  have heq : apply_filters s designHp designLp designNt filtfiltFn eeg_data =
      some (filterStage (0 < s.filter_settings.notch)
        (fun x => (designNt s.filter_settings.notch s.sampling_rate).bind
          fun ba => filtfiltFn ba x)
        (filterStage (s.filter_settings.lowpass < (s.sampling_rate : ℚ) / 2)
          (fun x => (designLp s.filter_settings.lowpass s.sampling_rate).bind
            fun ba => filtfiltFn ba x)
          (filterStage (0 < s.filter_settings.highpass)
            (fun x => (designHp s.filter_settings.highpass s.sampling_rate).bind
              fun ba => filtfiltFn ba x)
            eeg_data))) := by
    unfold apply_filters
    rw [if_neg (by omega), if_pos hen]
    simp only [e1, e2, e3]
  refine ⟨heq, ?_⟩
  intro y hy
  rw [heq, Option.some.injEq] at hy
  rw [← hy, filterStage_length _ _ _ (bind_design_length filtfiltFn hff _),
    filterStage_length _ _ _ (bind_design_length filtfiltFn hff _),
    filterStage_length _ _ _ (bind_design_length filtfiltFn hff _)]

/-- An always-succeeding trivial coefficient design, for witnesses. -/
def wDesign : ℚ → ℕ → Option (List ℚ × List ℚ) := fun _ _ => some ([], [])

/-- An identity filtfilt that always succeeds, for witnesses. -/
def wFiltfilt : List ℚ × List ℚ → List ℚ → Option (List ℚ) := fun _ x => some x

/-- Witness for the amended C5: thirty zero samples through the default
settings with succeeding designs and an identity filtfilt produce exactly
the three-stage pipeline result. -/
theorem apply_filters_stages_witness :
    apply_filters defaultSettings wDesign wDesign wDesign wFiltfilt
        (List.replicate 30 0) =
      some (filterStage (0 < defaultSettings.filter_settings.notch)
        (fun x => (wDesign defaultSettings.filter_settings.notch
          defaultSettings.sampling_rate).bind fun ba => wFiltfilt ba x)
        (filterStage (defaultSettings.filter_settings.lowpass <
            (defaultSettings.sampling_rate : ℚ) / 2)
          (fun x => (wDesign defaultSettings.filter_settings.lowpass
            defaultSettings.sampling_rate).bind fun ba => wFiltfilt ba x)
          (filterStage (0 < defaultSettings.filter_settings.highpass)
            (fun x => (wDesign defaultSettings.filter_settings.highpass
              defaultSettings.sampling_rate).bind fun ba => wFiltfilt ba x)
            (List.replicate 30 0)))) :=
  (apply_filters_stages defaultSettings wDesign wDesign wDesign wFiltfilt
    (List.replicate 30 0) (by simp) rfl (fun _ => rfl) (fun _ => rfl)
    (fun _ => rfl)
    (fun ba x y hxy => by
      simp only [wFiltfilt, Option.some.injEq] at hxy
      rw [← hxy])).1

/-! ## Spectral analyzer (filters.py lines 120-210) -/

/-- The five fixed frequency bands of calculate_bands. -/
inductive Band where
  | delta
  | theta
  | alpha
  | beta
  | gamma
deriving DecidableEq

/-- calculate_bands (filters.py lines 170-210): the Welch power-spectrum
estimate and per-band averaging are the oracle welchBands, with none
modelling an exception, which the source catches and maps to the zero
dictionary; fewer than two seconds of samples short-circuit to the zero
dictionary before Welch runs. -/
def calculate_bands (s : Settings) (welchBands : List ℚ → Option (Band → ℚ))
    (eeg_data : List ℚ) : Band → ℚ :=
  if eeg_data.length < s.sampling_rate * 2 then fun _ => 0
  else
    match welchBands eeg_data with
    | some bp => bp
    | none => fun _ => 0

/-- Claim C6: on fewer than 2 * sampling_rate samples, calculate_bands maps
each of the five bands to exactly 0. -/
theorem calculate_bands_short (s : Settings)
    (welchBands : List ℚ → Option (Band → ℚ)) (eeg_data : List ℚ)
    (h : eeg_data.length < s.sampling_rate * 2) :
    ∀ b : Band, calculate_bands s welchBands eeg_data b = 0 := by
  intro b
  unfold calculate_bands
  rw [if_pos h]

/-- Witness for C6 on three samples under the default 500 Hz settings, with
a Welch oracle that would report 1 everywhere if it ran. -/
theorem calculate_bands_short_witness :
    calculate_bands defaultSettings (fun _ => some fun _ => 1) [1, 2, 3]
        Band.delta = 0 ∧
    calculate_bands defaultSettings (fun _ => some fun _ => 1) [1, 2, 3]
        Band.theta = 0 ∧
    calculate_bands defaultSettings (fun _ => some fun _ => 1) [1, 2, 3]
        Band.alpha = 0 ∧
    calculate_bands defaultSettings (fun _ => some fun _ => 1) [1, 2, 3]
        Band.beta = 0 ∧
    calculate_bands defaultSettings (fun _ => some fun _ => 1) [1, 2, 3]
        Band.gamma = 0 :=
  ⟨calculate_bands_short defaultSettings _ _ (by decide) Band.delta,
    calculate_bands_short defaultSettings _ _ (by decide) Band.theta,
    calculate_bands_short defaultSettings _ _ (by decide) Band.alpha,
    calculate_bands_short defaultSettings _ _ (by decide) Band.beta,
    calculate_bands_short defaultSettings _ _ (by decide) Band.gamma⟩

/-- calculate_spectrogram (filters.py lines 120-168): the scipy short-time
Fourier transform together with the dB conversion is the oracle spectro,
producing the final (freqs, times, power_db) arrays on success and none on
an exception; the source returns a 5-tuple of Nones when fewer than
sampling_rate samples are available and on an exception, and otherwise the
three arrays together with the fixed display bounds min_freq 0, max_freq 70. -/
def calculate_spectrogram (s : Settings)
    (spectro : List ℚ → Option (List ℚ × List ℚ × List (List ℚ)))
    (eeg_data : List ℚ) :
    Option (List ℚ) × Option (List ℚ) × Option (List (List ℚ)) ×
      Option ℚ × Option ℚ :=
  if eeg_data.length < s.sampling_rate then (none, none, none, none, none)
  else
    match spectro eeg_data with
    | some (freqs, times, power_db) =>
      (some freqs, some times, some power_db, some 0, some 70)
    | none => (none, none, none, none, none)

/-- Claim C7: on fewer than sampling_rate samples (under one second of
data), calculate_spectrogram returns the all-None sentinel 5-tuple rather
than raising. -/
theorem calculate_spectrogram_short (s : Settings)
    (spectro : List ℚ → Option (List ℚ × List ℚ × List (List ℚ)))
    (eeg_data : List ℚ) (h : eeg_data.length < s.sampling_rate) :
    calculate_spectrogram s spectro eeg_data =
      (none, none, none, none, none) := by
  unfold calculate_spectrogram
  rw [if_pos h]

/-- Witness for C7 on three samples under the default 500 Hz settings, with
a spectrogram oracle that would succeed if it ran. -/
theorem calculate_spectrogram_short_witness :
    calculate_spectrogram defaultSettings (fun d => some (d, d, [d])) [1, 2, 3] =
      (none, none, none, none, none) :=
  calculate_spectrogram_short defaultSettings (fun d => some (d, d, [d]))
    [1, 2, 3] (by decide)

/-! ## Connection and recording state
(src/monitor/acquisition/serial_reader.py lines 82-162)

Filenames and file handles are modelled by natural numbers, wall-clock
times by rationals.  Status messages are shortened to a fixed text per
return site, since no claim depends on the interpolated parts. -/

/-- The mutable state of a SerialReader: connection, recording session and
the two sample deques with the timestamp base. -/
structure RecState where
  connected : Bool
  serOpen : Bool
  recording : Bool
  output_file : Option ℕ
  start_time : Option ℚ
  output_filename : Option ℕ
  eeg_buffer : List ℤ
  time_buffer : List ℚ
  last_timestamp : ℚ
deriving DecidableEq

/-- The state right after SerialReader.__init__ at wall-clock time t0. -/
def initState (t0 : ℚ) : RecState where
  connected := false
  serOpen := false
  recording := false
  output_file := none
  start_time := none
  output_filename := none
  eeg_buffer := []
  time_buffer := []
  last_timestamp := t0

/-- SerialReader.connect (lines 82-110): any open port is closed first; ok
models whether opening the new port succeeds (serial.Serial raising models
ok false); now is the wall-clock time of the call.  On success the two
buffers are cleared and the timestamp base reset to now; on failure the
reader is left disconnected.  Note an active recording is not stopped. -/
def connect (ok : Bool) (now : ℚ) (st : RecState) : RecState × Bool :=
  let st1 := if st.serOpen then { st with serOpen := false, connected := false }
    else st
  if ok then
    ({ st1 with
        serOpen := true
        connected := true
        eeg_buffer := []
        time_buffer := []
        last_timestamp := now }, true)
  else
    ({ st1 with connected := false }, false)

/-- SerialReader.start_recording (lines 126-140): fname models the generated
timestamped filename, openResult the outcome of open (none models an
exception), now the wall-clock time.  The filename is assigned before the
open is attempted, and there is no guard against already recording. -/
def start_recording (fname : ℕ) (now : ℚ) (openResult : Option ℕ)
    (st : RecState) : RecState × Bool × String :=
  if !st.connected then (st, false, "Not connected to any port. Cannot record.")
  else
    let st1 := { st with output_filename := some fname }
    match openResult with
    | some fh =>
      ({ st1 with
          output_file := some fh
          recording := true
          start_time := some now }, true, "Recording started")
    | none => (st1, false, "Error starting recording")

/-- SerialReader.stop_recording (lines 142-155). -/
def stop_recording (st : RecState) : RecState × Bool × String :=
  if !st.recording then (st, false, "Not recording")
  else
    match st.output_file with
    | some _ =>
      ({ st with output_file := none, recording := false }, true, "Saved")
    | none =>
      ({ st with recording := false }, false,
        "Recording stopped but no file was open")

/-- SerialReader.disconnect (lines 112-124): when the port is open, an
active recording is stopped first, then the port is closed and the reader
disconnected; otherwise nothing happens. -/
def disconnect (st : RecState) : RecState × Bool :=
  if st.serOpen then
    let st1 := if st.recording then (stop_recording st).1 else st
    ({ st1 with serOpen := false, connected := false }, true)
  else (st, false)

/-- The operations of the connect, disconnect, start-recording,
stop-recording state machine, with their external inputs. -/
inductive Event where
  | connectEv (ok : Bool) (now : ℚ)
  | disconnectEv
  | startRecEv (fname : ℕ) (now : ℚ) (openResult : Option ℕ)
  | stopRecEv
deriving DecidableEq

/-- One step of the state machine (the returned statuses are dropped). -/
def step (st : RecState) (e : Event) : RecState :=
  match e with
  | .connectEv ok now => (connect ok now st).1
  | .disconnectEv => (disconnect st).1
  | .startRecEv fname now openResult => (start_recording fname now openResult st).1
  | .stopRecEv => (stop_recording st).1

/-- Run a trace of events from the freshly initialised reader. -/
def run (t0 : ℚ) (es : List Event) : RecState :=
  es.foldl step (initState t0)

lemma stop_recording_recording (st : RecState) :
    (stop_recording st).1.recording = false := by
  unfold stop_recording
  split_ifs with h
  · simpa using h
  · cases hof : st.output_file <;> simp [hof]

lemma stop_recording_output_file (st : RecState) (h : st.recording = true) :
    (stop_recording st).1.output_file = none := by
  unfold stop_recording
  rw [if_neg (by simp [h])]
  cases hof : st.output_file <;> simp [hof]

lemma connect_recording (ok : Bool) (now : ℚ) (st : RecState) :
    (connect ok now st).1.recording = st.recording := by
  unfold connect
  split_ifs <;> rfl

lemma start_recording_connected (fname : ℕ) (now : ℚ) (openResult : Option ℕ)
    (st : RecState) :
    (start_recording fname now openResult st).1.connected = st.connected := by
  unfold start_recording
  split_ifs
  · rfl
  · cases openResult <;> rfl

lemma disconnect_cases (st : RecState) :
    (disconnect st).1.recording = false ∨ (disconnect st).1 = st := by
  unfold disconnect
  split_ifs with h1 h2
  · exact Or.inl (stop_recording_recording st)
  · left
    simp only [Bool.not_eq_true] at h2
    exact h2
  · exact Or.inr rfl

/-- Counterexample to C8 as stated: after connecting and starting a
recording (filename 1, handle 1, started at time 1), a second
start-recording call at time 2 in the Recording state is not a no-op — it
reports success and replaces the filename and the start time. -/
theorem start_recording_not_noop :
    (run 0 [Event.connectEv true 0, Event.startRecEv 1 1 (some 1)]).recording
        = true ∧
    (run 0 [Event.connectEv true 0, Event.startRecEv 1 1 (some 1)]).output_filename
        = some 1 ∧
    (start_recording 2 2 (some 2)
        (run 0 [Event.connectEv true 0, Event.startRecEv 1 1 (some 1)])).1.output_filename
        = some 2 ∧
    (start_recording 2 2 (some 2)
        (run 0 [Event.connectEv true 0, Event.startRecEv 1 1 (some 1)])).1.start_time
        = some 2 ∧
    (start_recording 2 2 (some 2)
        (run 0 [Event.connectEv true 0, Event.startRecEv 1 1 (some 1)])).2.1
        = true := by
  decide

/-- Claim C8 amended: stopping while not recording is a no-op that reports a
non-fatal failure status rather than raising; starting while already
recording, however, is not guarded — when connected and the file open
succeeds it reports success and begins a fresh session, replacing the
filename, file handle, start time and recording flag, instead of leaving the
recording state unchanged. -/
theorem recording_toggle_edges :
    (∀ st : RecState, st.recording = false →
      stop_recording st = (st, false, "Not recording")) ∧
    (∀ (st : RecState) (fname fh : ℕ) (now : ℚ), st.connected = true →
      start_recording fname now (some fh) st =
        ({ st with
            output_filename := some fname
            output_file := some fh
            recording := true
            start_time := some now }, true, "Recording started")) := by
  constructor
  · intro st hnr
    simp [stop_recording, hnr]
  · intro st fname fh now hc
    simp [start_recording, hc]

/-- Witness for the amended C8: stopping the freshly initialised reader is
a no-op with a non-fatal status. -/
theorem recording_toggle_edges_witness :
    stop_recording (initState 0) = (initState 0, false, "Not recording") :=
  recording_toggle_edges.1 (initState 0) rfl

/-- Counterexample to C9 as stated: connect, start recording, then a failed
reconnect attempt reaches a state that is Recording but not Connected, so
the claimed invariant does not hold of every reachable state. -/
theorem recording_implies_connected_cex :
    (run 0 [Event.connectEv true 0, Event.startRecEv 1 1 (some 1),
        Event.connectEv false 2]).recording = true ∧
    (run 0 [Event.connectEv true 0, Event.startRecEv 1 1 (some 1),
        Event.connectEv false 2]).connected = false ∧
    (run 0 [Event.connectEv true 0, Event.startRecEv 1 1 (some 1),
        Event.connectEv false 2]).serOpen = false := by
  decide

/-- Recording implies Connected. -/
def RecInv (st : RecState) : Prop := st.recording = true → st.connected = true

/-- Claim C9 amended: the initial state satisfies Recording-implies-Connected
and every operation preserves it except a connect attempt made while
recording (a failed one breaks it, as the counterexample shows);
start-recording while not connected fails with the state unchanged; and
disconnect with the port open while recording stops the recording (flag
cleared, file closed) as part of the transition that leaves the reader
disconnected. -/
theorem recording_implies_connected :
    (∀ t0 : ℚ, RecInv (initState t0)) ∧
    (∀ (st : RecState) (e : Event), RecInv st →
      (∀ ok now, e = Event.connectEv ok now → st.recording = false) →
      RecInv (step st e)) ∧
    (∀ (st : RecState) (fname : ℕ) (now : ℚ) (openResult : Option ℕ),
      st.connected = false →
      start_recording fname now openResult st =
        (st, false, "Not connected to any port. Cannot record.")) ∧
    (∀ st : RecState, st.serOpen = true → st.recording = true →
      (disconnect st).1.recording = false ∧
      (disconnect st).1.output_file = none ∧
      (disconnect st).1.connected = false ∧
      (disconnect st).1.serOpen = false) := by
  refine ⟨fun t0 hrec => by simp [initState] at hrec, ?_, ?_, ?_⟩
  · intro st e hinv hconn
    cases e with
    | connectEv ok now =>
      intro hrec
      rw [step, connect_recording] at hrec
      rw [hconn ok now rfl] at hrec
      cases hrec
    | disconnectEv =>
      rcases disconnect_cases st with hd | hd
      · intro hrec
        rw [step, hd] at hrec
        cases hrec
      · rw [step, hd]
        exact hinv
    | startRecEv fname now openResult =>
      by_cases hc : st.connected = true
      · intro _
        rw [step, start_recording_connected]
        exact hc
      · have hc' : st.connected = false := by
          simp only [Bool.not_eq_true] at hc
          exact hc
        rw [step]
        unfold start_recording
        rw [if_pos (by simp [hc'])]
        exact hinv
    | stopRecEv =>
      intro hrec
      rw [step, stop_recording_recording] at hrec
      cases hrec
  · intro st fname now openResult hc
    simp [start_recording, hc]
  · intro st hso hrec
    unfold disconnect
    rw [if_pos hso, if_pos hrec]
    exact ⟨stop_recording_recording st, stop_recording_output_file st hrec,
      rfl, rfl⟩

/-- Witness for the amended C9: start-recording on the freshly initialised
(disconnected) reader fails and changes nothing. -/
theorem recording_implies_connected_witness :
    start_recording 1 0 (some 1) (initState 0) =
      (initState 0, false, "Not connected to any port. Cannot record.") :=
  recording_implies_connected.2.2.1 (initState 0) 1 0 (some 1) rfl

/-! ## Session-relative timestamp base
(serial_reader.read_serial_data lines 198-208, connect lines 99-102) -/

/-- The timestamp base chosen in read_serial_data: the last buffered
timestamp, or the constant 0 when the timestamp buffer is empty. -/
def poll_time_base (time_buffer : List ℚ) : ℚ :=
  match time_buffer.getLast? with
  | some t => t
  | none => 0

/-- The timestamps produced by one poll, given the current timestamp buffer,
the elapsed wall-clock time since the previous poll and the number of
decoded samples. -/
def poll_timestamps (time_buffer : List ℚ) (dt : ℚ) (n : ℕ) : List ℚ :=
  sample_times (poll_time_base time_buffer) dt n

/-- One invocation of SerialReader.read_serial_data (lines 181-234) at
wall-clock time current_time, with the byte chunk incoming waiting on the
port: the elapsed-time base is advanced unconditionally, and when at least
one full 2-byte sample is waiting the decoded values and their reconstructed
timestamps are appended to the two bounded deques.  The recording-sink write
is outside this model. -/
def read_serial_data (cap : ℕ) (incoming : List ℕ) (current_time : ℚ)
    (st : RecState) : RecState :=
  if !st.serOpen then st
  else
    let dt := current_time - st.last_timestamp
    let st1 := { st with last_timestamp := current_time }
    if 2 ≤ incoming.length then
      let n := incoming.length / 2
      let values := decode_int16_le (incoming.take (2 * n))
      let times := poll_timestamps st1.time_buffer dt n
      { st1 with
          eeg_buffer := List.foldl (dequeAppend cap) st1.eeg_buffer values
          time_buffer := List.foldl (dequeAppend cap) st1.time_buffer times }
    else st1

/-- Claim C10: when the timestamp buffer is empty — as at startup and right
after any successful (re)connect, both of which leave it empty — the
decoder's timestamp base is the constant 0, so the poll's i-th timestamp is
dt * (i + 1) / n: session-relative, not wall-clock. -/
theorem first_poll_session_relative :
    (∀ (dt : ℚ) (n i : ℕ), i < n →
      (poll_timestamps [] dt n).getD i 0 = dt * (i + 1) / n) ∧
    (∀ t0 : ℚ, (initState t0).time_buffer = []) ∧
    (∀ (now : ℚ) (st : RecState), (connect true now st).1.time_buffer = []) := by
  refine ⟨?_, fun t0 => rfl, ?_⟩
  · intro dt n i hi
    show (sample_times (poll_time_base []) dt n).getD i 0 = dt * (i + 1) / n
    have hb : poll_time_base [] = 0 := rfl
    rw [hb, sample_times_getD 0 dt hi, zero_add]
  · intro now st
    unfold connect
    split_ifs <;> first | rfl | simp_all

/-- Witness for C10: the first of two samples decoded one second into a
fresh session gets the session-relative timestamp one half. -/
theorem first_poll_session_relative_witness :
    (poll_timestamps [] 1 2).getD 0 0 = 1 * (((0 : ℕ) : ℚ) + 1) / ((2 : ℕ) : ℚ) :=
  first_poll_session_relative.1 1 2 0 (by norm_num)

end EEG
